import Mathlib

/-!
Shallow embedding of `src/src/index.ts` (the `SentryRateLimiter` class and its
helpers).  Timestamps (`Date.now()` values, milliseconds) are modelled as `Int`;
JavaScript's `Map<string, ErrorRateLimit>` is modelled as an association list
with insertion-order semantics (`set` overwrites in place, `delete` removes,
iteration follows list order), matching the reachable states of a JS `Map`
whose keys are unique.  The mutable class instance becomes explicit state
passing: each operation takes the current `errorCounts` (and the call time
`now`) and returns its result together with the new state.
-/

namespace SentryRateLimiter

/-- One stack frame of a Sentry event: `{filename?: string, lineno?: number}`
(both fields optional, index.ts line 37 reads them through a template literal). -/
structure StackFrame where
  filename : Option String
  lineno : Option Nat
deriving DecidableEq

/-- `stacktrace` object of an exception value: `{frames?: [...]}`. -/
structure Stacktrace where
  frames : Option (List StackFrame)
deriving DecidableEq

/-- One element of `event.exception.values`:
`{type?: string, value?: string, stacktrace?: {...}}`. -/
structure ExceptionValue where
  type : Option String
  value : Option String
  stacktrace : Option Stacktrace
deriving DecidableEq

/-- `event.exception`: `{values?: [...]}`. -/
structure ExceptionInfo where
  values : Option (List ExceptionValue)
deriving DecidableEq

/-- The part of a Sentry `ErrorEvent` that `getErrorFingerprint` reads:
`{message?: string, exception?: {...}}`.  Any subset of the optional fields
may be absent, which `Option` captures. -/
structure ErrorEvent where
  message : Option String
  exception : Option ExceptionInfo
deriving DecidableEq

/-- JavaScript `a || b` specialised to an optional string `a` and a string
fallback `b`: `undefined` and the empty string are falsy, every other string
is truthy. -/
def jsOrStr : Option String → String → String
  | some s, d => if s = "" then d else s
  | none, d => d

/-- The optional chain `event.exception?.values?.[0]` (indexing an empty array
yields `undefined`, hence `List.head?`). -/
def firstException (e : ErrorEvent) : Option ExceptionValue :=
  (e.exception.bind (fun x => x.values)).bind List.head?

/-- The message part of the fingerprint (index.ts line 32):
`event.message || event.exception?.values?.[0]?.value || "unknown"`. -/
def fpMessage (e : ErrorEvent) : String :=
  jsOrStr e.message (jsOrStr ((firstException e).bind (fun v => v.value)) "unknown")

/-- The type part of the fingerprint (index.ts line 33):
`event.exception?.values?.[0]?.type || "Error"`. -/
def fpType (e : ErrorEvent) : String :=
  jsOrStr ((firstException e).bind (fun v => v.type)) "Error"

/-- The optional chain `event.exception?.values?.[0]?.stacktrace?.frames`. -/
def framesOpt (e : ErrorEvent) : Option (List StackFrame) :=
  ((firstException e).bind (fun v => v.stacktrace)).bind (fun st => st.frames)

/-- `Array.prototype.slice(-3)`: the last three elements, or the whole array
when it has fewer than three. -/
def lastN (n : Nat) (l : List StackFrame) : List StackFrame :=
  l.drop (l.length - n)

/-- The template literal of index.ts line 37, with JavaScript
string interpolation of `undefined` producing the literal text "undefined". -/
def frameSeg (f : StackFrame) : String :=
  (f.filename.getD "undefined") ++ ":" ++ ((f.lineno.map (fun n => toString n)).getD "undefined")

/-- The stacktrace part of the fingerprint (index.ts lines 34-38):
`frames?.slice(-3).map(f => filename:lineno).join("|") || ""`. -/
def fpStack (e : ErrorEvent) : String :=
  jsOrStr ((framesOpt e).map (fun fs => String.intercalate "|" ((lastN 3 fs).map frameSeg))) ""

/-- The frames that actually contribute to the fingerprint: the last three of
the first exception's stacktrace, or none when the chain is absent. -/
def retainedFrames (e : ErrorEvent) : List StackFrame :=
  match framesOpt e with
  | none => []
  | some fs => lastN 3 fs

/-- The fingerprint input string of index.ts line 40:
`` `${type}:${message}:${stacktrace}` ``.  The code then applies a SHA-256 hex
digest (line 41); the digest is a fixed deterministic function of this string,
so fingerprint equality is modelled as equality of the pre-hash input, and
fingerprint inequality as inequality of it (exact up to SHA-256 collisions). -/
def getErrorFingerprint (e : ErrorEvent) : String :=
  fpType e ++ ":" ++ fpMessage e ++ ":" ++ fpStack e

/-- The `ErrorRateLimit` record of index.ts lines 4-8. -/
structure ErrorRateLimit where
  count : Nat
  firstSeen : Int
  lastSeen : Int
deriving DecidableEq

/-- The construction-time configuration after defaulting and unit conversion
(index.ts lines 24-25): the admit cap and the window length in milliseconds. -/
structure Config where
  maxReportsPerWindow : Nat
  windowMs : Int
deriving DecidableEq

/-- The `errorCounts : Map<string, ErrorRateLimit>` field, as an association
list in insertion order with unique keys. -/
abbrev ErrorCounts := List (String × ErrorRateLimit)

/-- `Map.prototype.get`: the value stored at a key, if any. -/
def mapGet : ErrorCounts → String → Option ErrorRateLimit
  | [], _ => none
  | (k', v) :: rest, k => if k' = k then some v else mapGet rest k

/-- `Map.prototype.set`: overwrite the value at an existing key in place,
otherwise append a new binding. -/
def mapSet : ErrorCounts → String → ErrorRateLimit → ErrorCounts
  | [], k, v => [(k, v)]
  | (k', v') :: rest, k, v =>
    if k' = k then (k, v) :: rest else (k', v') :: mapSet rest k v

/-- The body of `shouldReport` after the fingerprint has been computed
(index.ts lines 46-76), returning the boolean decision and the new map.
Branches in source order: no entry, expired window, at-or-over cap, and
increment.  Note that the in-place mutations of lines 69 and 73-74 update the
entry stored in the map, which `mapSet` models. -/
def shouldReportKey (cfg : Config) (now : Int) (fingerprint : String) (m : ErrorCounts) :
    Bool × ErrorCounts :=
  match mapGet m fingerprint with
  | none => (true, mapSet m fingerprint ⟨1, now, now⟩)
  | some existing =>
    if existing.firstSeen < now - cfg.windowMs then
      (true, mapSet m fingerprint ⟨1, now, now⟩)
    else if cfg.maxReportsPerWindow ≤ existing.count then
      (false, mapSet m fingerprint ⟨existing.count, existing.firstSeen, now⟩)
    else
      (true, mapSet m fingerprint ⟨existing.count + 1, existing.firstSeen, now⟩)

/-- `shouldReport(event)` (index.ts lines 44-76): fingerprint the event, then
run the window-tracker step. -/
def shouldReport (cfg : Config) (now : Int) (e : ErrorEvent) (m : ErrorCounts) :
    Bool × ErrorCounts :=
  shouldReportKey cfg now (getErrorFingerprint e) m

/-- `cleanup()` (index.ts lines 78-87): delete every entry whose `lastSeen`
is strictly before `now - windowMs`. -/
def cleanup (cfg : Config) (now : Int) (m : ErrorCounts) : ErrorCounts :=
  m.filter (fun p => !(decide (p.2.lastSeen < now - cfg.windowMs)))

/-- One element of `getStats().errors` (index.ts lines 92-97); the `Date`
wrappers around the two timestamps carry the same millisecond values. -/
structure StatsEntry where
  fingerprint : String
  count : Nat
  firstSeen : Int
  lastSeen : Int
deriving DecidableEq

/-- The result shape of `getStats()` (index.ts lines 89-99). -/
structure Stats where
  trackedErrors : Nat
  errors : List StatsEntry
deriving DecidableEq

/-- `getStats()` (index.ts lines 89-99): `Map.size` is the number of stored
bindings, and `errors` lists them in iteration order. -/
def getStats (m : ErrorCounts) : Stats :=
  { trackedErrors := m.length
    errors := m.map (fun p => ⟨p.1, p.2.count, p.2.firstSeen, p.2.lastSeen⟩) }

/-- The mutable per-instance state: the map plus whether the periodic cleanup
timer is currently scheduled (`cleanupTimer !== undefined`). -/
structure LimiterState where
  errorCounts : ErrorCounts
  cleanupTimer : Bool
deriving DecidableEq

/-- State right after the constructor (index.ts lines 23-29): empty map,
sweeper scheduled. -/
def initialState : LimiterState :=
  { errorCounts := [], cleanupTimer := true }

/-- `destroy()` (index.ts lines 101-107): cancel the timer when one is
scheduled, then clear the map. -/
def destroy (s : LimiterState) : LimiterState :=
  let s1 := if s.cleanupTimer then { s with cleanupTimer := false } else s
  { s1 with errorCounts := [] }

/-- `createBeforeSend(rateLimiter)` (index.ts lines 110-119): the pre-send
hook returns `none` (JS `null`) when the report is dropped and the event
unchanged when admitted; the state threading makes the `shouldReport` side
effect explicit. -/
def createBeforeSend (cfg : Config) (now : Int) (e : ErrorEvent) (m : ErrorCounts) :
    Option ErrorEvent × ErrorCounts :=
  let r := shouldReport cfg now e m
  (if r.1 then some e else none, r.2)

lemma mapGet_mapSet_self (m : ErrorCounts) (k : String) (v : ErrorRateLimit) :
    mapGet (mapSet m k v) k = some v := by
  induction m with
  | nil => simp [mapGet, mapSet]
  | cons p rest ih =>
    obtain ⟨k', v'⟩ := p
    by_cases h : k' = k
    · simp [mapGet, mapSet, h]
    · simp [mapGet, mapSet, h, ih]

lemma mapGet_mapSet_ne (m : ErrorCounts) (k k' : String) (v : ErrorRateLimit)
    (h : k' ≠ k) : mapGet (mapSet m k v) k' = mapGet m k' := by
  have h2 : ¬ (k = k') := fun hh => h hh.symm
  induction m with
  | nil => simp [mapGet, mapSet, h2]
  | cons p rest ih =>
    obtain ⟨k'', v''⟩ := p
    by_cases hk : k'' = k
    · subst hk
      simp [mapGet, mapSet, h2]
    · simp [mapGet, mapSet, hk, ih]

lemma mem_mapSet (m : ErrorCounts) (k : String) (v : ErrorRateLimit)
    (p : String × ErrorRateLimit) (h : p ∈ mapSet m k v) : p = (k, v) ∨ p ∈ m := by
  induction m with
  | nil => simpa [mapSet] using h
  | cons q rest ih =>
    obtain ⟨k', v'⟩ := q
    by_cases hk : k' = k
    · rw [show mapSet ((k', v') :: rest) k v = (k, v) :: rest from by
        simp [mapSet, hk]] at h
      rcases List.mem_cons.mp h with h1 | h1
      · exact Or.inl h1
      · exact Or.inr (List.mem_cons_of_mem _ h1)
    · rw [show mapSet ((k', v') :: rest) k v = (k', v') :: mapSet rest k v from by
        simp [mapSet, hk]] at h
      rcases List.mem_cons.mp h with h1 | h1
      · exact Or.inr (by simp [h1])
      · rcases ih h1 with h2 | h2
        · exact Or.inl h2
        · exact Or.inr (List.mem_cons_of_mem _ h2)

lemma mapGet_mem (m : ErrorCounts) (k : String) (v : ErrorRateLimit)
    (h : mapGet m k = some v) : (k, v) ∈ m := by
  induction m with
  | nil => simp [mapGet] at h
  | cons q rest ih =>
    obtain ⟨k', v'⟩ := q
    by_cases hk : k' = k
    · subst hk
      have hv : v' = v := Option.some.inj (by simpa [mapGet] using h)
      subst hv
      exact List.mem_cons_self _ _
    · simp only [mapGet, if_neg hk] at h
      exact List.mem_cons_of_mem _ (ih h)

lemma jsOrStr_some_empty (x : String) : jsOrStr (some x) "" = x := by
  by_cases h : x = "" <;> simp [jsOrStr, h]

/-- The `|| ""` of index.ts line 38 is the identity on the joined string, so
the stacktrace part is exactly the join of the retained frames' segments. -/
lemma fpStack_eq (e : ErrorEvent) :
    fpStack e = String.intercalate "|" ((retainedFrames e).map frameSeg) := by
  unfold fpStack retainedFrames
  cases h : framesOpt e with
  | none => rfl
  | some fs => simp [jsOrStr_some_empty]

lemma string_append_left_cancel {a b c : String} (h : a ++ b = a ++ c) : b = c := by
  have hd : a.data ++ b.data = a.data ++ c.data := by
    rw [← String.data_append, ← String.data_append, h]
  have h2 := List.append_cancel_left hd
  cases b; cases c
  exact congrArg String.mk (by simpa using h2)

/-- C2: an entry whose window has fully elapsed (`firstSeen < now - windowMs`)
is reset to `{count := 1, firstSeen := now, lastSeen := now}` and the call
admits; otherwise `firstSeen` is preserved by the call, so the window stays
anchored at the first sighting and is never extended by later admits. -/
theorem window_reset_and_anchor (cfg : Config) (m : ErrorCounts) (key : String)
    (e : ErrorRateLimit) (now : Int) (h : mapGet m key = some e) :
    (e.firstSeen < now - cfg.windowMs →
      shouldReportKey cfg now key m = (true, mapSet m key ⟨1, now, now⟩) ∧
      mapGet (shouldReportKey cfg now key m).2 key = some ⟨1, now, now⟩) ∧
    (¬ e.firstSeen < now - cfg.windowMs →
      (mapGet (shouldReportKey cfg now key m).2 key).map (fun x => x.firstSeen)
        = some e.firstSeen) := by
  constructor
  · intro hw
    simp only [shouldReportKey, h, if_pos hw]
    exact ⟨trivial, mapGet_mapSet_self m key _⟩
  · intro hw
    simp only [shouldReportKey, h, if_neg hw]
    by_cases hc : cfg.maxReportsPerWindow ≤ e.count
    · rw [if_pos hc]
      simp [mapGet_mapSet_self]
    · rw [if_neg hc]
      simp [mapGet_mapSet_self]

theorem window_reset_and_anchor_witness :
    shouldReportKey ⟨5, 100⟩ 200 "k" [("k", ⟨1, 0, 0⟩)]
        = (true, mapSet [("k", ⟨1, 0, 0⟩)] "k" ⟨1, 200, 200⟩) ∧
    mapGet (shouldReportKey ⟨5, 100⟩ 200 "k" [("k", ⟨1, 0, 0⟩)]).2 "k"
        = some ⟨1, 200, 200⟩ :=
  (window_reset_and_anchor ⟨5, 100⟩ [("k", ⟨1, 0, 0⟩)] "k" ⟨1, 0, 0⟩ 200 rfl).1
    (by decide)

/-- C5: when the entry is inside its window and already at (or beyond) the
cap, the call drops, the entry keeps its `count` and `firstSeen` and only
`lastSeen` moves to `now`, and no other key's entry changes. -/
theorem cap_drop_frame (cfg : Config) (m : ErrorCounts) (key : String)
    (e : ErrorRateLimit) (now : Int) (h : mapGet m key = some e)
    (hw : ¬ e.firstSeen < now - cfg.windowMs)
    (hc : cfg.maxReportsPerWindow ≤ e.count) :
    (shouldReportKey cfg now key m).1 = false ∧
    mapGet (shouldReportKey cfg now key m).2 key = some ⟨e.count, e.firstSeen, now⟩ ∧
    ∀ k', k' ≠ key → mapGet (shouldReportKey cfg now key m).2 k' = mapGet m k' := by
  simp only [shouldReportKey, h, if_neg hw, if_pos hc]
  refine ⟨trivial, mapGet_mapSet_self m key _, ?_⟩
  intro k' hk'
  exact mapGet_mapSet_ne m key k' _ hk'

theorem cap_drop_frame_witness :
    ((shouldReportKey ⟨2, 100⟩ 50 "k" [("k", ⟨2, 0, 0⟩), ("j", ⟨1, 3, 3⟩)]).1 = false ∧
      mapGet (shouldReportKey ⟨2, 100⟩ 50 "k" [("k", ⟨2, 0, 0⟩), ("j", ⟨1, 3, 3⟩)]).2 "k"
        = some ⟨2, 0, 50⟩) ∧
    mapGet (shouldReportKey ⟨2, 100⟩ 50 "k" [("k", ⟨2, 0, 0⟩), ("j", ⟨1, 3, 3⟩)]).2 "j"
        = mapGet [("k", ⟨2, 0, 0⟩), ("j", ⟨1, 3, 3⟩)] "j" := by
  have h := cap_drop_frame ⟨2, 100⟩ [("k", ⟨2, 0, 0⟩), ("j", ⟨1, 3, 3⟩)] "k"
    ⟨2, 0, 0⟩ 50 rfl (by decide) (by decide)
  exact ⟨⟨h.1, h.2.1⟩, h.2.2 "j" (by decide)⟩

/-- C4: one sweep keeps exactly the bindings whose `lastSeen` is at least
`now - windowMs`, each unchanged, and deletes all the strictly older ones;
`getStats` then reports exactly the number of remaining bindings. -/
theorem cleanup_exact (cfg : Config) (now : Int) (m : ErrorCounts)
    (k : String) (e : ErrorRateLimit) :
    ((k, e) ∈ cleanup cfg now m ↔ ((k, e) ∈ m ∧ ¬ e.lastSeen < now - cfg.windowMs)) ∧
    (getStats (cleanup cfg now m)).trackedErrors = (cleanup cfg now m).length := by
  constructor
  · simp [cleanup, List.mem_filter]
  · rfl

lemma destroy_eq (s : LimiterState) : destroy s = ⟨[], false⟩ := by
  unfold destroy
  by_cases h : s.cleanupTimer <;> simp [h]

/-- C8: `destroy` is idempotent, total even when the timer is already
cancelled, and leaves a state whose `getStats().trackedErrors` is `0`. -/
theorem destroy_idempotent (s : LimiterState) :
    destroy (destroy s) = destroy s ∧
    (getStats (destroy s).errorCounts).trackedErrors = 0 ∧
    (s.cleanupTimer = false → destroy s = ⟨[], false⟩) := by
  simp [destroy_eq, getStats]

theorem destroy_idempotent_witness :
    destroy (destroy ⟨[("k", ⟨1, 0, 0⟩)], false⟩) = destroy ⟨[("k", ⟨1, 0, 0⟩)], false⟩ ∧
    (getStats (destroy (⟨[("k", ⟨1, 0, 0⟩)], false⟩ : LimiterState)).errorCounts).trackedErrors = 0 ∧
    destroy (⟨[("k", ⟨1, 0, 0⟩)], false⟩ : LimiterState) = ⟨[], false⟩ :=
  ⟨(destroy_idempotent ⟨[("k", ⟨1, 0, 0⟩)], false⟩).1,
   (destroy_idempotent ⟨[("k", ⟨1, 0, 0⟩)], false⟩).2.1,
   (destroy_idempotent ⟨[("k", ⟨1, 0, 0⟩)], false⟩).2.2 rfl⟩

/-- C7: fingerprinting is a total function of the (all-optional) event shape,
decomposing into the three parts, and each missing field falls back to its
sentinel: absent message to the first exception's value or `"unknown"`,
absent type to `"Error"`, absent or empty frame list to the empty segment. -/
theorem fingerprint_total_fallbacks (e : ErrorEvent) :
    getErrorFingerprint e = fpType e ++ ":" ++ fpMessage e ++ ":" ++ fpStack e ∧
    (e.message = none →
      fpMessage e = jsOrStr ((firstException e).bind (fun v => v.value)) "unknown") ∧
    ((firstException e).bind (fun v => v.type) = none → fpType e = "Error") ∧
    (framesOpt e = none → fpStack e = "") ∧
    (framesOpt e = some [] → fpStack e = "") := by
  refine ⟨rfl, ?_, ?_, ?_, ?_⟩
  · intro h
    simp only [fpMessage, h]
    rfl
  · intro h
    simp only [fpType, h]
    rfl
  · intro h
    simp only [fpStack, h]
    rfl
  · intro h
    simp only [fpStack, h]
    rfl

/-- A fully absent event, for the fallback witnesses. -/
def evEmpty : ErrorEvent := ⟨none, none⟩

/-- An event whose first exception carries an empty frame list. -/
def evNoFrames : ErrorEvent := ⟨none, some ⟨some [⟨none, none, some ⟨some []⟩⟩]⟩⟩

theorem fingerprint_total_fallbacks_witness :
    (getErrorFingerprint evEmpty
        = fpType evEmpty ++ ":" ++ fpMessage evEmpty ++ ":" ++ fpStack evEmpty ∧
      fpMessage evEmpty
        = jsOrStr ((firstException evEmpty).bind (fun v => v.value)) "unknown" ∧
      fpType evEmpty = "Error" ∧
      fpStack evEmpty = "") ∧
    fpStack evNoFrames = "" := by
  have h1 := fingerprint_total_fallbacks evEmpty
  have h2 := fingerprint_total_fallbacks evNoFrames
  exact ⟨⟨h1.1, h1.2.1 rfl, h1.2.2.1 rfl, h1.2.2.2.1 rfl⟩, h2.2.2.2.2 rfl⟩

/-- C9: a present-but-empty `message` is falsy in JavaScript, so it behaves
exactly like an absent message: the fingerprint of the event with
`message = ""` equals the fingerprint of the same event without a message,
the message part falls back to the first exception's value or `"unknown"`,
and a present-but-empty exception type likewise falls back to `"Error"`. -/
theorem empty_message_as_missing (exc : Option ExceptionInfo) (e : ErrorEvent) :
    getErrorFingerprint ⟨some "", exc⟩ = getErrorFingerprint ⟨none, exc⟩ ∧
    fpMessage ⟨some "", exc⟩
      = jsOrStr ((firstException ⟨some "", exc⟩).bind (fun v => v.value)) "unknown" ∧
    ((firstException e).bind (fun v => v.type) = some "" → fpType e = "Error") := by
  refine ⟨?_, ?_, ?_⟩
  · simp [getErrorFingerprint, fpMessage, fpType, fpStack, firstException, framesOpt, jsOrStr]
  · simp [fpMessage, jsOrStr]
  · intro h
    simp [fpType, h, jsOrStr]

/-- An event with an empty-string exception type. -/
def evEmptyType : ErrorEvent := ⟨none, some ⟨some [⟨some "", some "v", none⟩]⟩⟩

theorem empty_message_as_missing_witness :
    (getErrorFingerprint ⟨some "", none⟩ = getErrorFingerprint ⟨none, none⟩ ∧
      fpMessage ⟨some "", none⟩
        = jsOrStr ((firstException ⟨some "", none⟩).bind (fun v => v.value)) "unknown") ∧
    fpType evEmptyType = "Error" := by
  have h1 := empty_message_as_missing none evEmpty
  have h2 := empty_message_as_missing none evEmptyType
  exact ⟨⟨h1.1, h1.2.1⟩, h2.2.2 rfl⟩

/-- Two events identical except that the single frame's `filename` is the
string `"undefined"` in one and absent in the other. -/
def evUndef1 : ErrorEvent :=
  ⟨some "m", some ⟨some [⟨some "T", none, some ⟨some [⟨some "undefined", some 3⟩]⟩⟩]⟩⟩

/-- Counterpart of `evUndef1` with the `filename` actually missing. -/
def evUndef2 : ErrorEvent :=
  ⟨some "m", some ⟨some [⟨some "T", none, some ⟨some [⟨none, some 3⟩]⟩⟩]⟩⟩

/-- C10: a frame missing `filename` or `lineno` contributes the literal text
"undefined" for each missing part (an entirely empty frame contributes
"undefined:undefined"), fingerprinting still succeeds, and a frame whose
`filename` is the string "undefined" is indistinguishable from one whose
`filename` is absent, so two such distinct events collapse to the same key. -/
theorem undefined_frame_parts (fn : Option String) (l : Option Nat) :
    frameSeg ⟨none, none⟩ = "undefined:undefined" ∧
    frameSeg ⟨none, l⟩ = "undefined" ++ ":" ++ ((l.map (fun n => toString n)).getD "undefined") ∧
    frameSeg ⟨fn, none⟩ = (fn.getD "undefined") ++ ":" ++ "undefined" ∧
    frameSeg ⟨some "undefined", l⟩ = frameSeg ⟨none, l⟩ ∧
    (evUndef1 ≠ evUndef2 ∧ getErrorFingerprint evUndef1 = getErrorFingerprint evUndef2) := by
  exact ⟨by decide, rfl, rfl, rfl, by decide, by decide⟩

/-- One-frame event whose filename embeds the separator characters. -/
def evDepth1 : ErrorEvent :=
  ⟨some "m", some ⟨some [⟨some "T", none, some ⟨some [⟨some "x:1|y", some 2⟩]⟩⟩]⟩⟩

/-- Two-frame event with the same type and message as `evDepth1`. -/
def evDepth2 : ErrorEvent :=
  ⟨some "m", some ⟨some [⟨some "T", none,
    some ⟨some [⟨some "x", some 1⟩, ⟨some "y", some 2⟩]⟩⟩]⟩⟩

/-- C3 counterexample: `evDepth1` retains one frame and `evDepth2` retains
two, with identical type and message, yet the two fingerprints coincide —
the filename "x:1|y" reproduces the frame separators in the joined stack
signature.  So differing stack depth does not guarantee a different key. -/
theorem fingerprint_depth_collision :
    (retainedFrames evDepth1).length ≠ (retainedFrames evDepth2).length ∧
    getErrorFingerprint evDepth1 = getErrorFingerprint evDepth2 :=
  ⟨by decide, by decide⟩

/-- C3 (amended): events with identical derived type, derived message and
identical formatted last-three-frame segments have equal fingerprints; and
with identical type and message parts, fingerprints differ exactly when the
joined stack signatures differ as strings.  (Differing depth, file or line
alone need not change the key when a filename embeds ':' or '|'.) -/
theorem fingerprint_determinism (e1 e2 : ErrorEvent) :
    (fpType e1 = fpType e2 → fpMessage e1 = fpMessage e2 →
      (retainedFrames e1).map frameSeg = (retainedFrames e2).map frameSeg →
      getErrorFingerprint e1 = getErrorFingerprint e2) ∧
    (fpType e1 = fpType e2 → fpMessage e1 = fpMessage e2 →
      fpStack e1 ≠ fpStack e2 → getErrorFingerprint e1 ≠ getErrorFingerprint e2) := by
  constructor
  · intro ht hm hs
    unfold getErrorFingerprint
    rw [ht, hm, fpStack_eq, fpStack_eq, hs]
  · intro ht hm hs hfp
    apply hs
    unfold getErrorFingerprint at hfp
    rw [ht, hm] at hfp
    exact string_append_left_cancel hfp

/-- The plain one-message event used across the concrete witnesses. -/
def eBoom : ErrorEvent := ⟨some "boom", none⟩

/-- Same derived type and message as `eBoom` but a nonempty stack. -/
def evBoomStack : ErrorEvent :=
  ⟨some "boom", some ⟨some [⟨none, none, some ⟨some [⟨some "a", some 1⟩]⟩⟩]⟩⟩

theorem fingerprint_determinism_witness :
    getErrorFingerprint eBoom = getErrorFingerprint eBoom ∧
    getErrorFingerprint eBoom ≠ getErrorFingerprint evBoomStack :=
  ⟨(fingerprint_determinism eBoom eBoom).1 rfl rfl rfl,
   (fingerprint_determinism eBoom evBoomStack).2 (by decide) (by decide) (by decide)⟩

/-- A sequence of timed `shouldReport` calls, returning the decisions in call
order together with the final map. -/
def runEvents (cfg : Config) : List (Int × ErrorEvent) → ErrorCounts → List Bool × ErrorCounts
  | [], m => ([], m)
  | (t, e) :: rest, m =>
    ((shouldReport cfg t e m).1 :: (runEvents cfg rest (shouldReport cfg t e m).2).1,
     (runEvents cfg rest (shouldReport cfg t e m).2).2)

lemma runEvents_engine (cfg : Config) (key : String) :
    ∀ (calls : List (Int × ErrorEvent)) (m : ErrorCounts) (c : Nat) (t0 tl : Int),
      mapGet m key = some ⟨c, t0, tl⟩ →
      (∀ p ∈ calls, getErrorFingerprint p.2 = key) →
      (∀ p ∈ calls, p.1 ≤ t0 + cfg.windowMs) →
      ∀ i, i < calls.length →
        (runEvents cfg calls m).1.getD i false = decide (c + i < cfg.maxReportsPerWindow) := by
  intro calls
  induction calls with
  | nil => intro m c t0 tl _ _ _ i hi; simp at hi
  | cons p rest ih =>
    obtain ⟨t, e⟩ := p
    intro m c t0 tl hm hkey hwin i hi
    have hk : getErrorFingerprint e = key := hkey (t, e) (List.mem_cons_self _ _)
    have ht : t ≤ t0 + cfg.windowMs := hwin (t, e) (List.mem_cons_self _ _)
    have hreset : ¬ ((⟨c, t0, tl⟩ : ErrorRateLimit).firstSeen < t - cfg.windowMs) := by
      simp only [ErrorRateLimit.mk.injEq]
      omega
    by_cases hc : cfg.maxReportsPerWindow ≤ c
    · have hstep : shouldReport cfg t e m
          = (false, mapSet m key ⟨c, t0, t⟩) := by
        simp only [shouldReport, hk, shouldReportKey, hm, if_neg hreset, if_pos hc]
      cases i with
      | zero =>
        simp only [runEvents, hstep, List.getD_cons_zero]
        exact (decide_eq_false (by omega : ¬ (c + 0 < cfg.maxReportsPerWindow))).symm
      | succ j =>
        simp only [runEvents, hstep, List.getD_cons_succ]
        have hrec := ih (mapSet m key ⟨c, t0, t⟩) c t0 t
          (mapGet_mapSet_self m key _)
          (fun p hp => hkey p (List.mem_cons_of_mem _ hp))
          (fun p hp => hwin p (List.mem_cons_of_mem _ hp))
          j (by simpa using Nat.lt_of_succ_lt_succ hi)
        rw [hrec]
        exact decide_eq_decide.mpr (by omega)
    · have hstep : shouldReport cfg t e m
          = (true, mapSet m key ⟨c + 1, t0, t⟩) := by
        simp only [shouldReport, hk, shouldReportKey, hm, if_neg hreset, if_neg hc]
      cases i with
      | zero =>
        simp only [runEvents, hstep, List.getD_cons_zero]
        exact (decide_eq_true (by omega : c + 0 < cfg.maxReportsPerWindow)).symm
      | succ j =>
        simp only [runEvents, hstep, List.getD_cons_succ]
        have hrec := ih (mapSet m key ⟨c + 1, t0, t⟩) (c + 1) t0 t
          (mapGet_mapSet_self m key _)
          (fun p hp => hkey p (List.mem_cons_of_mem _ hp))
          (fun p hp => hwin p (List.mem_cons_of_mem _ hp))
          j (by simpa using Nat.lt_of_succ_lt_succ hi)
        rw [hrec]
        exact decide_eq_decide.mpr (by omega)

/-- C1: starting from the freshly constructed (empty) limiter, for any
sequence of calls that all map to one fingerprint key and all happen within
one window anchored at the first call's time, the i-th decision (0-based) is
true exactly when `i < maxReportsPerWindow`: the first N calls admit and
every later one in that window drops. -/
theorem cap_enforcement (cfg : Config) (key : String) (t0 : Int) (e0 : ErrorEvent)
    (rest : List (Int × ErrorEvent))
    (hN : 1 ≤ cfg.maxReportsPerWindow)
    (hk0 : getErrorFingerprint e0 = key)
    (hks : ∀ p ∈ rest, getErrorFingerprint p.2 = key)
    (hwin : ∀ p ∈ rest, t0 ≤ p.1 ∧ p.1 ≤ t0 + cfg.windowMs) :
    ∀ i, i < ((t0, e0) :: rest).length →
      (runEvents cfg ((t0, e0) :: rest) []).1.getD i false
        = decide (i < cfg.maxReportsPerWindow) := by
  intro i hi
  have hstep : shouldReport cfg t0 e0 [] = (true, [(key, ⟨1, t0, t0⟩)]) := by
    simp only [shouldReport, hk0, shouldReportKey, mapGet, mapSet]
  cases i with
  | zero =>
    simp only [runEvents, hstep, List.getD_cons_zero]
    exact (decide_eq_true (by omega : 0 < cfg.maxReportsPerWindow)).symm
  | succ j =>
    simp only [runEvents, hstep, List.getD_cons_succ]
    have hrec := runEvents_engine cfg key rest [(key, ⟨1, t0, t0⟩)] 1 t0 t0
      (by simp [mapGet])
      hks
      (fun p hp => (hwin p hp).2)
      j (by simpa using Nat.lt_of_succ_lt_succ hi)
    rw [hrec]
    exact decide_eq_decide.mpr (by omega)

theorem cap_enforcement_witness :
    (runEvents ⟨2, 100⟩ [((0 : Int), eBoom), (1, eBoom), (2, eBoom)] []).1.getD 2 false
      = decide (2 < 2) :=
  cap_enforcement ⟨2, 100⟩ "Error:boom:" 0 eBoom [(1, eBoom), (2, eBoom)]
    (by decide) (by decide)
    (by decide) (by decide)
    2 (by decide)

/-- The operations a caller (or the timer callback) can perform on a live
instance; `stats` is the read-only observer, `teardown` is `destroy()`. -/
inductive Op where
  | report (e : ErrorEvent)
  | sweep
  | stats
  | teardown
deriving DecidableEq

/-- Apply one timed operation to the instance state. -/
def applyOp (cfg : Config) (now : Int) (op : Op) (s : LimiterState) : LimiterState :=
  match op with
  | .report e => { s with errorCounts := (shouldReport cfg now e s.errorCounts).2 }
  | .sweep => { s with errorCounts := cleanup cfg now s.errorCounts }
  | .stats => s
  | .teardown => destroy s

/-- Run a list of timed operations in order. -/
def runOps (cfg : Config) : List (Int × Op) → LimiterState → LimiterState
  | [], s => s
  | (t, op) :: rest, s => runOps cfg rest (applyOp cfg t op s)

/-- Every tracked entry is well-formed (`count ≥ 1`, `firstSeen ≤ lastSeen`)
and was last touched no later than `t`. -/
def InvUpTo (t : Int) (m : ErrorCounts) : Prop :=
  ∀ p ∈ m, (1 ≤ p.2.count ∧ p.2.firstSeen ≤ p.2.lastSeen) ∧ p.2.lastSeen ≤ t

lemma shouldReportKey_inv (cfg : Config) (now t : Int) (key : String)
    (m : ErrorCounts) (hm : InvUpTo t m) (hle : t ≤ now) :
    InvUpTo now (shouldReportKey cfg now key m).2 := by
  cases hcase : mapGet m key with
  | none =>
    simp only [shouldReportKey, hcase]
    intro p hp
    rcases mem_mapSet m key ⟨1, now, now⟩ p hp with h | h
    · subst h; exact ⟨⟨le_refl 1, le_refl now⟩, le_refl now⟩
    · rcases hm p h with ⟨hw, hl⟩; exact ⟨hw, le_trans hl hle⟩
  | some e =>
    have he : (1 ≤ e.count ∧ e.firstSeen ≤ e.lastSeen) ∧ e.lastSeen ≤ t :=
      hm (key, e) (mapGet_mem m key e hcase)
    simp only [shouldReportKey, hcase]
    by_cases hr : e.firstSeen < now - cfg.windowMs
    · rw [if_pos hr]
      intro p hp
      rcases mem_mapSet m key ⟨1, now, now⟩ p hp with h | h
      · subst h; exact ⟨⟨le_refl 1, le_refl now⟩, le_refl now⟩
      · rcases hm p h with ⟨hw, hl⟩; exact ⟨hw, le_trans hl hle⟩
    · rw [if_neg hr]
      by_cases hc : cfg.maxReportsPerWindow ≤ e.count
      · rw [if_pos hc]
        intro p hp
        rcases mem_mapSet m key ⟨e.count, e.firstSeen, now⟩ p hp with h | h
        · subst h
          refine ⟨⟨he.1.1, ?_⟩, le_refl now⟩
          show e.firstSeen ≤ now
          have h1 := he.1.2
          have h2 := he.2
          omega
        · rcases hm p h with ⟨hw, hl⟩; exact ⟨hw, le_trans hl hle⟩
      · rw [if_neg hc]
        intro p hp
        rcases mem_mapSet m key ⟨e.count + 1, e.firstSeen, now⟩ p hp with h | h
        · subst h
          refine ⟨⟨?_, ?_⟩, le_refl now⟩
          · show 1 ≤ e.count + 1
            omega
          · show e.firstSeen ≤ now
            have h1 := he.1.2
            have h2 := he.2
            omega
        · rcases hm p h with ⟨hw, hl⟩; exact ⟨hw, le_trans hl hle⟩

lemma cleanup_inv (cfg : Config) (now t : Int) (m : ErrorCounts)
    (hm : InvUpTo t m) (hle : t ≤ now) : InvUpTo now (cleanup cfg now m) := by
  intro p hp
  have hpm : p ∈ m := List.mem_of_mem_filter hp
  rcases hm p hpm with ⟨hw, hl⟩
  exact ⟨hw, le_trans hl hle⟩

lemma applyOp_inv (cfg : Config) (now t : Int) (op : Op) (s : LimiterState)
    (hm : InvUpTo t s.errorCounts) (hle : t ≤ now) :
    InvUpTo now (applyOp cfg now op s).errorCounts := by
  cases op with
  | report e =>
    have h := shouldReportKey_inv cfg now t (getErrorFingerprint e) s.errorCounts hm hle
    simpa [applyOp, shouldReport] using h
  | sweep =>
    have h := cleanup_inv cfg now t s.errorCounts hm hle
    simpa [applyOp] using h
  | stats =>
    intro p hp
    rcases hm p hp with ⟨hw, hl⟩
    exact ⟨hw, le_trans hl hle⟩
  | teardown =>
    intro p hp
    simp [applyOp, destroy_eq] at hp

lemma runOps_inv (cfg : Config) :
    ∀ (ops : List (Int × Op)) (s : LimiterState) (t : Int),
      InvUpTo t s.errorCounts →
      List.Chain' (· ≤ ·) (t :: ops.map Prod.fst) →
      ∀ p ∈ (runOps cfg ops s).errorCounts,
        1 ≤ p.2.count ∧ p.2.firstSeen ≤ p.2.lastSeen := by
  intro ops
  induction ops with
  | nil => intro s t hm _ p hp; exact (hm p hp).1
  | cons q rest ih =>
    obtain ⟨now, op⟩ := q
    intro s t hm hch
    simp only [List.map_cons] at hch
    have hch' := List.chain'_cons.mp hch
    exact ih (applyOp cfg now op s) now (applyOp_inv cfg now t op s hm hch'.1) hch'.2

/-- C6: from the freshly constructed instance, under non-decreasing operation
times, every entry of every reachable state satisfies `count ≥ 1` and
`firstSeen ≤ lastSeen`; the run may interleave `shouldReport` calls, cleanup
sweeps, `getStats` reads and `destroy`. -/
theorem reachable_invariants (cfg : Config) (ops : List (Int × Op))
    (h : List.Chain' (· ≤ ·) (ops.map Prod.fst)) :
    ∀ p ∈ (runOps cfg ops initialState).errorCounts,
      1 ≤ p.2.count ∧ p.2.firstSeen ≤ p.2.lastSeen := by
  cases ops with
  | nil => intro p hp; simp [runOps, initialState] at hp
  | cons q rest =>
    obtain ⟨t0, op⟩ := q
    have hinv : InvUpTo t0 initialState.errorCounts := by
      intro p hp; simp [initialState] at hp
    apply runOps_inv cfg ((t0, op) :: rest) initialState t0 hinv
    simp only [List.map_cons]
    refine List.chain'_cons.mpr ⟨le_refl t0, ?_⟩
    simpa using h

theorem reachable_invariants_witness :
    1 ≤ (⟨1, (0 : Int), (0 : Int)⟩ : ErrorRateLimit).count ∧
    (⟨1, (0 : Int), (0 : Int)⟩ : ErrorRateLimit).firstSeen
      ≤ (⟨1, (0 : Int), (0 : Int)⟩ : ErrorRateLimit).lastSeen :=
  reachable_invariants ⟨2, 100⟩ [((0 : Int), Op.report eBoom), (1, Op.sweep), (2, Op.stats)]
    (by simp [List.chain'_cons]) ("Error:boom:", ⟨1, 0, 0⟩) (by decide)

